import Mathlib

/-!
Verification development for the annotated-tree printer (`pasta/base/codegen.py`)
and the constant-inlining transformation (`pasta/augment/inline.py`).

Shallow embedding notes:
* Python strings are Lean `String`; Python `None`-or-value is `Option`.
* `Printer._add_code` replaces the literal marker `@@indent@@` by the printer's
  current indent before appending; this is modelled by `replaceMarker`.
* External collaborators of the repository that are not part of the sources
  (the annotator `pasta/base/annotate.py`, the formatting side-table
  `pasta/base/formatting.py`, `pasta/base/fstring_utils.py`,
  `pasta/base/scope.py`, `pasta/base/ast_utils.py`) are modelled from the
  spec where needed; each such definition says so in its doc comment.
-/

namespace Pasta

/-- The characters of the indentation marker `@@indent@@` used by
`Printer._add_code` in `codegen.py`. -/
def markerChars : List Char := "@@indent@@".toList

/-- Does a character list contain the `@@indent@@` marker as a sublist?
(Helper used to state when `_add_code` is a plain append.) -/
def hasMarker : List Char → Bool
  | [] => false
  | c :: rest => (List.take 10 (c :: rest) == markerChars) || hasMarker rest

/-- Scanner for `str.replace('@@indent@@', indent)`: in state `skip = 0` look
for the marker at the current position, emitting `ind` and entering skip state
`9` on a match (the matched character plus the next nine belong to the
marker); in state `skip > 0` drop the character. -/
def replaceMarkerAux (ind : List Char) : Nat → List Char → List Char
  | _, [] => []
  | 0, c :: rest =>
    if List.take 10 (c :: rest) = markerChars then
      ind ++ replaceMarkerAux ind 9 rest
    else
      c :: replaceMarkerAux ind 0 rest
  | k + 1, _ :: rest => replaceMarkerAux ind k rest

/-- Python `str.replace('@@indent@@', indent)`: replace every non-overlapping
occurrence of the marker, scanning left to right, as `Printer._add_code` does. -/
def replaceMarker (ind : List Char) (l : List Char) : List Char :=
  replaceMarkerAux ind 0 l

/-- The marker substitution of `_add_code`, on `String`s. -/
def replaceIndentStr (ind s : String) : String :=
  String.mk (replaceMarker ind.toList s.toList)

/-- Predicate: `s` contains no `@@indent@@` marker. -/
def noMarker (s : String) : Prop := hasMarker s.toList = false

instance (s : String) : Decidable (noMarker s) := by
  unfold noMarker; infer_instance

/-- Printer state: the output buffer `self._code` and the current
indentation `self._indent` (the latter is maintained by the external base
visitor; only its use in `_add_code` is in the sources). -/
structure PState where
  code : String
  indent : String

/-- Model of `Printer._add_code`: substitute the indent marker, append to the buffer. -/
def addCode (p : PState) (s : String) : PState :=
  { p with code := p.code ++ replaceIndentStr p.indent s }

/-- Last character of the buffer is alphanumeric (Python `self.code[-1].isalnum()`
restricted to the ASCII alphanumerics of `Char.isAlphanum`). -/
def lastIsAlnum (s : String) : Bool :=
  (s.toList.getLast?).elim false Char.isAlphanum

/-- First character of a token is alphanumeric (Python `val[0].isalnum()`). -/
def firstIsAlnum (s : String) : Bool :=
  (s.toList.head?).elim false Char.isAlphanum

/-- Model of `Printer.token` from `codegen.py`: emit a token, inserting a single space
first when `separate_before` is set, the buffer is non-empty and ends in an
alphanumeric character, and the token is empty or starts alphanumeric
(Python `not token_val or token_val[0].isalnum()`). -/
def token (p : PState) (tokenVal : String) (separateBefore : Bool) : PState :=
  let p :=
    if separateBefore && !(p.code = "") && lastIsAlnum p.code &&
        (tokenVal = "" || firstIsAlnum tokenVal) then
      addCode p " "
    else p
  addCode p tokenVal

/-- A printable node for the `attr`/`token` fragment of the printer:
the formatting side-table entries (`pasta/base/formatting.py`, modelled as an
association list), the node's live attributes (for Python `getattr`), and the
transient `_printer_info` memoization table (`none` models the attribute being
absent, i.e. `hasattr` false; `some done` holds the keys already emitted). -/
structure PNode where
  fmtStore : List (String × String)
  attrs : List (String × String)
  printerInfo : Option (List String)

/-- Modelled from the spec: `fmt.get(node, name)` of the external
`pasta/base/formatting.py` — look the key up in the per-node store,
`None` when absent. -/
def fmtGet (n : PNode) (key : String) : Option String :=
  (n.fmtStore.find? (fun pr => pr.1 == key)).map (fun pr => pr.2)

/-- Modelled from the spec: `fmt.has(node, name)` of the external
`pasta/base/formatting.py`. -/
def fmtHas (n : PNode) (key : String) : Bool :=
  (fmtGet n key).isSome

/-- Python `getattr(node, dep, None)`: the node's live attribute value. -/
def getattrOpt (n : PNode) (key : String) : Option String :=
  (n.attrs.find? (fun pr => pr.1 == key)).map (fun pr => pr.2)

/-- The staleness test of `Printer.attr`: some declared dependency has a stored
snapshot `dep + '__src'` differing from the node's live value. -/
def attrStale (n : PNode) (deps : List String) : Bool :=
  deps.any (fun d =>
    fmtHas n (d ++ "__src") && !(getattrOpt n d == fmtGet n (d ++ "__src")))

/-- Model of `Printer.attr` from `codegen.py`: skip when `_printer_info` is absent or the
attribute was already emitted; otherwise mark it emitted, fetch the stored
fragment, fall back to `default` when absent or stale, then emit with the same
optional separating space as `token`.  The unused `attr_vals` parameter of the
source is omitted (`del attr_vals`). -/
def attr (p : PState) (n : PNode) (attrName : String) (deps : List String)
    (default : Option String) (separateBefore : Bool) : PState × PNode :=
  match n.printerInfo with
  | none => (p, n)
  | some done =>
    if attrName ∈ done then (p, n)
    else
      let n' : PNode := { n with printerInfo := some (attrName :: done) }
      let val := fmtGet n attrName
      let val := if val = none || attrStale n deps then default else val
      let v := val.getD ""
      let p :=
        if separateBefore && !(p.code = "") && lastIsAlnum p.code &&
            (v = "" || firstIsAlnum v) then
          addCode p " "
        else p
      (addCode p v, n')

/-! ### Default-style inference (`to_str`, lines 202-216 of `codegen.py`) -/

/-- The sort key used by Python's
`max(seen_indent_diffs.items(), key=lambda tup: (tup[1], -1 * len(tup[0])))`:
`a` strictly beats `b` when it has a larger count, or the same count and a
strictly shorter indent string. -/
def keyGt (a b : String × Nat) : Bool :=
  (decide (b.2 < a.2)) || ((a.2 == b.2) && decide (a.1.length < b.1.length))

/-- Python `max` with that key: fold keeping the current best, replacing it
only on a strictly greater key (so the first maximum wins ties). -/
def pickMax : List (String × Nat) → Option (String × Nat)
  | [] => none
  | x :: xs => some (xs.foldl (fun best c => if keyGt c best then c else best) x)

/-- The indent-delta string selected by `to_str` from the accumulated
`seen_indent_diffs` counts (`none` when no `indent_diff` was seen, in which
case `set_default_indent_diff` is not called). -/
def inferFromCounts (counts : List (String × Nat)) : Option String :=
  (pickMax counts).map (fun pr => pr.1)

/-- One step of `seen_indent_diffs[indent_diff] += 1` on a `defaultdict`
modelled as an association list in first-seen order. -/
def bump (acc : List (String × Nat)) (d : String) : List (String × Nat) :=
  if acc.any (fun pr => pr.1 == d) then
    acc.map (fun pr => if pr.1 == d then (pr.1, pr.2 + 1) else pr)
  else acc ++ [(d, 1)]

/-- The counting loop of `to_str`: walk the tree, read each node's stored
`indent_diff` (here given as the list of fragments in walk order, `""` for
absent), skip falsy values, count the rest. -/
def countDiffs (ds : List String) : List (String × Nat) :=
  (ds.filter (fun d => !(d = ""))).foldl bump []

/-- The whole default-style inference of `to_str` as a function of the
`indent_diff` fragments in tree-walk order. -/
def inferIndent (ds : List String) : Option String :=
  inferFromCounts (countDiffs ds)

/-! ### The `visit` error wrapper (`Printer.visit`, lines 61-67) -/

/-- The Python exception kinds relevant to `Printer.visit`: the four internal
kinds its `except` clause catches, the `PrintError` it re-raises, and a
catch-all for any other exception type. -/
inductive PyErr where
  | typeError (msg : String)
  | valueError (msg : String)
  | indexError (msg : String)
  | keyError (msg : String)
  | printError (msg : String)
  | otherError (msg : String)
  deriving DecidableEq, Repr

/-- Is this one of the internal error kinds `(TypeError, ValueError,
IndexError, KeyError)` that `Printer.visit` catches? -/
def isInternalErr : PyErr → Bool
  | .typeError _ => true
  | .valueError _ => true
  | .indexError _ => true
  | .keyError _ => true
  | .printError _ => false
  | .otherError _ => false

/-- The message carried into `PrintError(e)`. -/
def errMsg : PyErr → String
  | .typeError m => m
  | .valueError m => m
  | .indexError m => m
  | .keyError m => m
  | .printError m => m
  | .otherError m => m

/-- Model of `Printer.visit` from `codegen.py`: initialize the node's `_printer_info`,
delegate to the base visitor's dispatch (external, here the parameter
`superVisit`), catch the four internal error kinds and re-raise `PrintError`,
and on success delete `_printer_info` again. -/
def visitNode (superVisit : PNode → Except PyErr PNode) (n : PNode) :
    Except PyErr PNode :=
  let n0 : PNode := { n with printerInfo := some [] }
  match superVisit n0 with
  | .ok n1 => .ok { n1 with printerInfo := none }
  | .error e =>
    if isInternalErr e then .error (.printError (errMsg e)) else .error e

/-! ### Round-trip rendering model (`to_str` and the `visit_*` literal visitors)

The visitors defined in `codegen.py` itself cover the module root and the
literal node kinds (`Num`, `Str`, `Bytes`, `Constant`); every other node kind
is rendered by the external base visitor of `pasta/base/annotate.py`.  The
round-trip model therefore covers a module whose direct children are literal
nodes, which is exactly the fragment whose printing code is in the sources. -/

/-- A per-node formatting store (`node.__pasta__` written by the external
annotator), as an association list from attribute name to fragment. -/
abbrev Fmt := List (String × String)

/-- Store lookup, `None` when absent. -/
def fget (st : Fmt) (key : String) : Option String :=
  (st.find? (fun pr => pr.1 == key)).map (fun pr => pr.2)

/-- Python `repr` of an integer (the `repr(node.n)` default of `visit_Num`;
floats are outside this model). -/
def intRepr (n : Int) : String := toString n

/-- Python `repr` of a simple string — one containing no quote, backslash or
control characters, so `repr` just wraps it in single quotes.  Models the
`repr(node.s)` defaults of the literal visitors on such values. -/
def pyReprStr (s : String) : String := "'" ++ s ++ "'"

/-- Literal nodes whose visitors are defined in `codegen.py`:
`visit_Num`, `visit_Str` (without the `typed_ast27` `kind` attribute hack,
which only applies to python-2 typed ASTs), `visit_Bytes`, `visit_Constant`. -/
inductive ALeaf where
  | numL (n : Int) (st : Fmt)
  | strL (s : String) (st : Fmt)
  | bytesL (s : String) (st : Fmt)
  | constL (isEllipsisV : Bool) (s : String) (st : Fmt)

/-- A module node with its store and its literal children, the fragment of the
tree grammar rendered entirely by code in `codegen.py`. -/
structure ATree where
  st : Fmt
  body : List ALeaf

/-- Modelled from the spec: the `prefix`/`suffix` helpers of the external base
visitor emit the node's stored pre/post formatting fragment, or nothing when
absent (spec 4.3, generic rule). -/
def pfxFrag (st : Fmt) : String := (fget st "prefix").getD ""

/-- Modelled from the spec: the stored post-formatting fragment. -/
def sfxFrag (st : Fmt) : String := (fget st "suffix").getD ""

/-- Render one literal node exactly as the corresponding `visit_*` method of
`codegen.py` does, every emitted piece passing through `_add_code`'s marker
substitution (`ind` is the printer's current indent). -/
def renderLeaf (ind : String) : ALeaf → String
  | .numL n st =>
    replaceIndentStr ind (pfxFrag st) ++
    replaceIndentStr ind ((fget st "content").getD (intRepr n)) ++
    replaceIndentStr ind (sfxFrag st)
  | .strL s st =>
    replaceIndentStr ind (pfxFrag st) ++
    (match fget st "fmt" with
     | some f =>
       if f = "" then
         replaceIndentStr ind ((fget st "content").getD (pyReprStr s))
       else
         replaceIndentStr ind f ++
         replaceIndentStr ind ((fget st "content").getD (pyReprStr s))
     | none => replaceIndentStr ind ((fget st "content").getD (pyReprStr s))) ++
    replaceIndentStr ind (sfxFrag st)
  | .bytesL s st =>
    replaceIndentStr ind (pfxFrag st) ++
    replaceIndentStr ind ((fget st "content").getD ("b" ++ pyReprStr s)) ++
    replaceIndentStr ind (sfxFrag st)
  | .constL isEll s st =>
    replaceIndentStr ind (pfxFrag st) ++
    replaceIndentStr ind
      (if isEll then "..." else (fget st "content").getD (pyReprStr s)) ++
    replaceIndentStr ind (sfxFrag st)

/-- Render the children in order (`generic_visit`). -/
def renderBody (ind : String) : List ALeaf → String
  | [] => ""
  | x :: xs => renderLeaf ind x ++ renderBody ind xs

/-- Model of `visit_Module`: prefix, optional `bom` fragment, children, suffix. -/
def renderTree (ind : String) (t : ATree) : String :=
  replaceIndentStr ind (pfxFrag t.st) ++
  (match fget t.st "bom" with
   | some b => replaceIndentStr ind b
   | none => "") ++
  renderBody ind t.body ++
  replaceIndentStr ind (sfxFrag t.st)

/-- Model of `to_str` on this fragment: the printer starts with an empty buffer and an
empty current indent; the default-indent inference only affects nodes lacking
stored indentation, which never fire on a fully annotated tree. -/
def to_strT (t : ATree) : String := renderTree "" t

/-- Marker-free restriction of `leafSrcRaw` (a proof intermediate): `some`
exactly when every fragment the visitor reads is stored *and* free of the
indent marker, in which case the segment is their concatenation in emission
order.  On trees in this subdomain the printer's marker substitution is the
identity; `leafSrc_of_raw` below derives membership from marker-freedom of
the whole source text. -/
def leafSrc : ALeaf → Option String
  | .numL _ st =>
    match fget st "prefix", fget st "content", fget st "suffix" with
    | some p, some c, some s =>
      if noMarker p ∧ noMarker c ∧ noMarker s then some (p ++ c ++ s) else none
    | _, _, _ => none
  | .strL _ st =>
    match fget st "prefix", fget st "content", fget st "suffix" with
    | some p, some c, some s =>
      if noMarker p ∧ noMarker c ∧ noMarker s then
        match fget st "fmt" with
        | some f =>
          if f = "" then some (p ++ c ++ s)
          else if noMarker f then some (p ++ f ++ c ++ s) else none
        | none => some (p ++ c ++ s)
      else none
    | _, _, _ => none
  | .bytesL _ st =>
    match fget st "prefix", fget st "content", fget st "suffix" with
    | some p, some c, some s =>
      if noMarker p ∧ noMarker c ∧ noMarker s then some (p ++ c ++ s) else none
    | _, _, _ => none
  | .constL isEll _ st =>
    match fget st "prefix", fget st "content", fget st "suffix" with
    | some p, some c, some s =>
      if noMarker p ∧ noMarker c ∧ noMarker s ∧ (isEll = true → c = "...") then
        some (p ++ c ++ s)
      else none
    | _, _, _ => none

/-- Marker-free source segments of a list of children, concatenated
(restriction of `bodySrcRaw`, a proof intermediate). -/
def bodySrc : List ALeaf → Option String
  | [] => some ""
  | x :: xs =>
    match leafSrc x, bodySrc xs with
    | some a, some b => some (a ++ b)
    | _, _ => none

/-- Marker-free restriction of `treeSrcRaw` (a proof intermediate). -/
def treeSrc (t : ATree) : Option String :=
  match fget t.st "prefix", fget t.st "suffix" with
  | some p, some s =>
    if noMarker p ∧ noMarker s ∧ noMarker ((fget t.st "bom").getD "") then
      match bodySrc t.body with
      | some b => some (p ++ (fget t.st "bom").getD "" ++ b ++ s)
      | none => none
    else none
  | _, _ => none

/-- The source segment a fully annotated literal node was read from:
`some` exactly when every fragment the visitor reads is stored, in which case
the segment is the fragments' concatenation in emission order.  Modelled from
the spec: the external annotator stores, for each node, the verbatim source
fragments (spec 1, 3, 4.1); no condition beyond completeness is imposed. -/
def leafSrcRaw : ALeaf → Option String
  | .numL _ st =>
    match fget st "prefix", fget st "content", fget st "suffix" with
    | some p, some c, some s => some (p ++ c ++ s)
    | _, _, _ => none
  | .strL _ st =>
    match fget st "prefix", fget st "content", fget st "suffix" with
    | some p, some c, some s =>
      match fget st "fmt" with
      | some f => if f = "" then some (p ++ c ++ s) else some (p ++ f ++ c ++ s)
      | none => some (p ++ c ++ s)
    | _, _, _ => none
  | .bytesL _ st =>
    match fget st "prefix", fget st "content", fget st "suffix" with
    | some p, some c, some s => some (p ++ c ++ s)
    | _, _, _ => none
  | .constL isEll _ st =>
    match fget st "prefix", fget st "content", fget st "suffix" with
    | some p, some c, some s =>
      if isEll = true → c = "..." then some (p ++ c ++ s) else none
    | _, _, _ => none

/-- Source segments of a list of children, concatenated. -/
def bodySrcRaw : List ALeaf → Option String
  | [] => some ""
  | x :: xs =>
    match leafSrcRaw x, bodySrcRaw xs with
    | some a, some b => some (a ++ b)
    | _, _ => none

/-- The source text a fully annotated tree was produced from.  Modelled from
the spec: `parseAndAnnotate(S)` (external) yields a tree whose stored
fragments concatenate, in emission order, back to `S`; `treeSrcRaw t = some S`
says `t` is such a tree for source `S`. -/
def treeSrcRaw (t : ATree) : Option String :=
  match fget t.st "prefix", fget t.st "suffix" with
  | some p, some s =>
    match bodySrcRaw t.body with
    | some b => some (p ++ (fget t.st "bom").getD "" ++ b ++ s)
    | none => none
  | _, _ => none

/-! ### Interpolated-string synthesis (`visit_JoinedStr`, lines 98-114) -/

/-- Modelled from the spec: `fstring_utils.placeholder(i)` of the external
`pasta/base/fstring_utils.py` — the textual placeholder marker with ordinal
`i` (spec 4.4: positional placeholders, one per embedded expression). -/
def placeholder (i : Nat) : String :=
  "__pasta_fstring_val_" ++ toString i ++ "__"

/-- Replace the first occurrence of `pat` in `l` by `sub` (Python
`str.replace(pat, sub, 1)`); `l` unchanged when `pat` does not occur. -/
def replaceFirst (pat sub : List Char) : List Char → List Char
  | [] => []
  | c :: rest =>
    if List.take pat.length (c :: rest) = pat then
      sub ++ List.drop (pat.length - 1) rest
    else
      c :: replaceFirst pat sub rest

/-- Modelled from the spec: `fstring_utils.perform_replacements(content, vals)`
— substitute the rendering of the embedded expression with ordinal `i` at the
placeholder with ordinal `i`, for `i = 0, 1, ...` (spec 4.4: substitution is
position-based, by ordinal index into the embedded-expression list). -/
def performReplacements (content : String) (vals : List String) : String :=
  String.mk ((vals.enum.foldl
    (fun acc pr => replaceFirst (placeholder pr.1).toList pr.2.toList acc)
    content.toList))

/-- A child of a `JoinedStr` node: a literal text segment (`ast.Str`), or a
`FormattedValue` embedded expression, represented by the string its recursive
`to_str(v)` call renders (that rendering is performed by the external base
visitor, not by code in the sources). -/
inductive JVal where
  | strSeg (s : String)
  | formatted (rendered : String)

/-- Modelled from the spec: `fstring_utils.get_formatted_values` — the
embedded-expression children in left-to-right order; composed here with the
recursive `to_str` call of line 111. -/
def renderedValues (values : List JVal) : List String :=
  values.foldr
    (fun v acc => match v with
      | .strSeg _ => acc
      | .formatted r => r :: acc) []

/-- The template-synthesis loop of `visit_JoinedStr` when no `content`
fragment is stored: concatenate literal segments, inserting
`placeholder(len(parts))` for each embedded expression, then `repr` the
joined string (modelled for strings needing no escapes). -/
def synthesizeContent (values : List JVal) : String :=
  let parts := values.foldl
    (fun parts v => match v with
      | .strSeg s => parts ++ [s]
      | .formatted _ => parts ++ [placeholder parts.length]) []
  pyReprStr (String.join parts)

/-- Model of `visit_JoinedStr` on a node with no stored `content`: synthesize the
template, render the embedded expressions, substitute. -/
def visitJoinedStrSynth (values : List JVal) : String :=
  performReplacements (synthesizeContent values) (renderedValues values)

/-- What the spec's synthesis rule requires: placeholder ordinals equal each
embedded expression's left-to-right position in the embedded-expression list
(spec 4.4).  Substituting the renderings by ordinal into such a template
interleaves the literal segments with the renderings. -/
def specSynthesis (values : List JVal) : String :=
  let parts := (values.foldl
    (fun pr v => match v with
      | .strSeg s => (pr.1 ++ [s], pr.2)
      | .formatted _ => (pr.1 ++ [placeholder pr.2], pr.2 + 1))
    (([] : List String), 0)).1
  performReplacements (pyReprStr (String.join parts)) (renderedValues values)

/-! ### Constant inlining (`pasta/augment/inline.py`)

Python AST nodes are mutable objects compared by identity; the model gives
every node a numeric identity `nid` and performs the object-identity
operations (`sc.parent`, `ast_utils.replace_child`, `ast_utils.remove_child`)
by identity lookup in the tree, which coincides with the Python behaviour
whenever identities are unique (as they are for real ASTs). -/

/-- Expression contexts (`ast.Load` / `ast.Store` / `ast.Del`). -/
inductive Ctx where
  | load
  | store
  | del0
  deriving DecidableEq, Repr

/-- Expressions of the modelled AST fragment. -/
inductive Exp where
  | nameE (nid : Nat) (sid : String) (ctx : Ctx)
  | numE (nid : Nat) (n : Int)
  | binop (nid : Nat) (l : Exp) (op : String) (r : Exp)
  deriving DecidableEq, Repr

/-- Statements of the modelled AST fragment. -/
inductive Stm where
  | assign (nid : Nat) (targets : List Exp) (value : Exp)
  | augAssign (nid : Nat) (target : Exp) (op : String) (value : Exp)
  | ifStm (nid : Nat) (test : Exp) (body : List Stm)
  | funcDef (nid : Nat) (fname : String) (body : List Stm)
  | exprStm (nid : Nat) (e : Exp)
  deriving Repr

/-- A module: the tree root. -/
structure Mod where
  nid : Nat
  body : List Stm
  deriving Repr

/-- Identity of an expression node. -/
def expId : Exp → Nat
  | .nameE i _ _ => i
  | .numE i _ => i
  | .binop i _ _ _ => i

/-- Identity of a statement node. -/
def stmId : Stm → Nat
  | .assign i _ _ => i
  | .augAssign i _ _ _ => i
  | .ifStm i _ _ => i
  | .funcDef i _ _ => i
  | .exprStm i _ => i

/-- A reference to a node of any syntactic class (the result of identity
lookups such as `sc.parent`). -/
inductive NodeRef where
  | modR
  | stmR (s : Stm)
  | expR (e : Exp)

/-- The Python class name of a node, as used in `type(...)` messages. -/
def kindOf : NodeRef → String
  | .modR => "Module"
  | .stmR (.assign _ _ _) => "Assign"
  | .stmR (.augAssign _ _ _ _) => "AugAssign"
  | .stmR (.ifStm _ _ _) => "If"
  | .stmR (.funcDef _ _ _) => "FunctionDef"
  | .stmR (.exprStm _ _) => "Expr"
  | .expR (.nameE _ _ _) => "Name"
  | .expR (.numE _ _) => "Num"
  | .expR (.binop _ _ _ _) => "BinOp"

/-- Python `'%r' % type(x)`: `repr` of the class of a node, or of `None`. -/
def typeReprOfOpt : Option NodeRef → String
  | none => "<class 'NoneType'>"
  | some r => "<class 'ast." ++ kindOf r ++ "'>"

/-- Find the expression node with identity `nid`. -/
def findExp (nid : Nat) : Exp → Option NodeRef
  | .nameE i s c => if i = nid then some (.expR (.nameE i s c)) else none
  | .numE i n => if i = nid then some (.expR (.numE i n)) else none
  | .binop i l op r =>
    if i = nid then some (.expR (.binop i l op r))
    else (findExp nid l).orElse (fun _ => findExp nid r)

/-- Find in a list of expressions. -/
def findExpList (nid : Nat) : List Exp → Option NodeRef
  | [] => none
  | e :: rest => (findExp nid e).orElse (fun _ => findExpList nid rest)

mutual

/-- Find the node with identity `nid` inside a statement. -/
def findStm (nid : Nat) : Stm → Option NodeRef
  | .assign i tgts v =>
    if i = nid then some (.stmR (.assign i tgts v))
    else (findExpList nid tgts).orElse (fun _ => findExp nid v)
  | .augAssign i t op v =>
    if i = nid then some (.stmR (.augAssign i t op v))
    else (findExp nid t).orElse (fun _ => findExp nid v)
  | .ifStm i t body =>
    if i = nid then some (.stmR (.ifStm i t body))
    else (findExp nid t).orElse (fun _ => findStmList nid body)
  | .funcDef i f body =>
    if i = nid then some (.stmR (.funcDef i f body))
    else findStmList nid body
  | .exprStm i e =>
    if i = nid then some (.stmR (.exprStm i e)) else findExp nid e

/-- Find in a list of statements. -/
def findStmList (nid : Nat) : List Stm → Option NodeRef
  | [] => none
  | s :: rest => (findStm nid s).orElse (fun _ => findStmList nid rest)

end

/-- Find the node with identity `nid` in a module. -/
def findNodeM (m : Mod) (nid : Nat) : Option NodeRef :=
  if m.nid = nid then some .modR else findStmList nid m.body

/-- Parent lookup inside an expression: the expression whose direct child has
identity `nid`. -/
def parentInExp (nid : Nat) : Exp → Option NodeRef
  | .nameE _ _ _ => none
  | .numE _ _ => none
  | .binop i l op r =>
    if expId l = nid ∨ expId r = nid then some (.expR (.binop i l op r))
    else (parentInExp nid l).orElse (fun _ => parentInExp nid r)

/-- Parent lookup in a list of expressions. -/
def parentInExpList (nid : Nat) : List Exp → Option NodeRef
  | [] => none
  | e :: rest => (parentInExp nid e).orElse (fun _ => parentInExpList nid rest)

mutual

/-- Parent lookup inside a statement. -/
def parentInStm (nid : Nat) : Stm → Option NodeRef
  | .assign i tgts v =>
    if tgts.any (fun t => expId t = nid) ∨ expId v = nid then
      some (.stmR (.assign i tgts v))
    else (parentInExpList nid tgts).orElse (fun _ => parentInExp nid v)
  | .augAssign i t op v =>
    if expId t = nid ∨ expId v = nid then some (.stmR (.augAssign i t op v))
    else (parentInExp nid t).orElse (fun _ => parentInExp nid v)
  | .ifStm i t body =>
    if expId t = nid ∨ body.any (fun s => stmId s = nid) then
      some (.stmR (.ifStm i t body))
    else (parentInExp nid t).orElse (fun _ => parentInStmList nid body)
  | .funcDef i f body =>
    if body.any (fun s => stmId s = nid) then some (.stmR (.funcDef i f body))
    else parentInStmList nid body
  | .exprStm i e =>
    if expId e = nid then some (.stmR (.exprStm i e)) else parentInExp nid e

/-- Parent lookup in a list of statements. -/
def parentInStmList (nid : Nat) : List Stm → Option NodeRef
  | [] => none
  | s :: rest => (parentInStm nid s).orElse (fun _ => parentInStmList nid rest)

end

/-- Modelled from the spec: `sc.parent(node)` of the external
`pasta/base/scope.py` — the non-owning parent lookup (spec 3), realized here
as the node whose direct child carries the identity `nid`. -/
def parentOfM (m : Mod) (nid : Nat) : Option NodeRef :=
  if m.body.any (fun s => stmId s = nid) then some .modR
  else parentInStmList nid m.body

/-- Model of `copy.deepcopy` of an expression: a structurally identical tree with fresh
object identities, modelled by clearing the identities to `0`. -/
def deepcopyExp : Exp → Exp
  | .nameE _ s c => .nameE 0 s c
  | .numE _ n => .numE 0 n
  | .binop _ l op r => .binop 0 (deepcopyExp l) op (deepcopyExp r)

/-- Replace, anywhere inside an expression, the node with identity `nid` by
`new` (`ast_utils.replace_child` on the parent whose field holds it). -/
def replaceInExp (nid : Nat) (new : Exp) : Exp → Exp
  | .nameE i s c => if i = nid then new else .nameE i s c
  | .numE i n => if i = nid then new else .numE i n
  | .binop i l op r =>
    if i = nid then new
    else .binop i (replaceInExp nid new l) op (replaceInExp nid new r)

/-- Replace in a list of expressions. -/
def replaceInExpListAux (nid : Nat) (new : Exp) (l : List Exp) : List Exp :=
  l.map (replaceInExp nid new)

mutual

/-- Replace an expression node by identity inside a statement. -/
def replaceInStm (nid : Nat) (new : Exp) : Stm → Stm
  | .assign i tgts v =>
    .assign i (replaceInExpListAux nid new tgts) (replaceInExp nid new v)
  | .augAssign i t op v =>
    .augAssign i (replaceInExp nid new t) op (replaceInExp nid new v)
  | .ifStm i t body =>
    .ifStm i (replaceInExp nid new t) (replaceInStmList nid new body)
  | .funcDef i f body => .funcDef i f (replaceInStmList nid new body)
  | .exprStm i e => .exprStm i (replaceInExp nid new e)

/-- Replace in a list of statements. -/
def replaceInStmList (nid : Nat) (new : Exp) : List Stm → List Stm
  | [] => []
  | s :: rest => replaceInStm nid new s :: replaceInStmList nid new rest

end

/-- Modelled from the spec: `ast_utils.replace_child(parent, old, new)`
(external) — swap the child with identity `nid` for `new`, leaving the rest
of the tree intact (spec 6: assumed to correctly update field structure). -/
def replaceExpById (m : Mod) (nid : Nat) (new : Exp) : Mod :=
  { m with body := replaceInStmList nid new m.body }

/-- Modelled from the spec: `ast_utils.remove_child(module, stmt)` (external)
— remove the statement with identity `nid` from the module body. -/
def removeTopStm (m : Mod) (nid : Nat) : Mod :=
  { m with body := m.body.filter (fun s => !(stmId s = nid)) }

/-- Model of `assign_node.targets = tgt_list` on the top-level assignment with
identity `aid`. -/
def setTopAssignTargets (m : Mod) (aid : Nat) (tgts : List Exp) : Mod :=
  { m with body := m.body.map (fun s =>
      match s with
      | .assign i _ v => if i = aid then .assign i tgts v else s
      | _ => s) }

/-- Modelled from the spec: a scope-table entry for one name — its single
defining node (if any) and all its recorded references, each a read or a
write occurrence (spec 3, Scope Table); references are node identities. -/
structure NameEntry where
  definition : Option Nat
  reads : List Nat

/-- Modelled from the spec: the result of the external `scope.analyze(t)` —
the mapping from names to their entries. -/
structure Scope where
  names : List (String × NameEntry)

/-- Lookup `sc.names[name]`, `None` when absent (where Python raises `KeyError`). -/
def lookupName (sc : Scope) (nm : String) : Option NameEntry :=
  (sc.names.find? (fun pr => pr.1 == nm)).map (fun pr => pr.2)

/-- The exceptions `inline_name` can raise: its own `InlineError` with its
message, or the `KeyError` escaping from `sc.names[name]`. -/
inductive PyExc where
  | inlineError (msg : String)
  | keyError (k : String)
  deriving DecidableEq, Repr

/-- Is this the module root (`isinstance(sc.parent(assign_node), Module)`)? -/
def isModRef : Option NodeRef → Bool
  | some .modR => true
  | _ => false

/-- Is this reference in a write position
(`isinstance(getattr(ref, 'ctx', None), astlib.Store)`)? -/
def ctxIsStore : Option NodeRef → Bool
  | some (.expR (.nameE _ _ .store)) => true
  | _ => false

/-- Is the target a `Name` node for `name`
(`isinstance(tgt, astlib.Name) and tgt.id == name`)? -/
def isNameNamed (t : Exp) (name : String) : Bool :=
  match t with
  | .nameE _ sid _ => sid = name
  | _ => false

/-- Model of `inline_name` from `pasta/augment/inline.py`, transcribed check by check
and mutation by mutation in source order.  The result models the in-place
Python call: the raised exception (if any) paired with the tree afterwards.
The degenerate aliasing of a definition whose value expression contains reads
of the same name is not modelled (the copied value is the one captured at
`value = assign_node.value`). -/
def inline_name (sc : Scope) (m : Mod) (name : String) : Option PyExc × Mod :=
  match lookupName sc name with
  | none => (some (.keyError name), m)
  | some entry =>
    let defRef := entry.definition.bind (fun i => findNodeM m i)
    match defRef with
    | some (.expR (.nameE defId _ _)) =>
      (match parentOfM m defId with
       | some (.stmR (.assign aid _tgts value)) =>
         if !(isModRef (parentOfM m aid)) then
           (some (.inlineError (pyReprStr name ++ " is not a top-level name")), m)
         else if entry.reads.any (fun r => ctxIsStore (findNodeM m r)) then
           (some (.inlineError (pyReprStr name ++ " is not a constant")), m)
         else
           let m1 := entry.reads.foldl
             (fun acc r => replaceExpById acc r (deepcopyExp value)) m
           let m2 :=
             match findNodeM m1 aid with
             | some (.stmR (.assign _ tgts1 _)) =>
               if tgts1.length = 1 then removeTopStm m1 aid
               else setTopAssignTargets m1 aid
                 (tgts1.filter (fun t => !(isNameNamed t name)))
             | _ => m1
           (none, m2)
       | _ =>
         (some (.inlineError
           (pyReprStr name ++ " is not declared in an assignment")), m))
    | other =>
      (some (.inlineError (pyReprStr name ++ " is not a constant; it has type "
        ++ typeReprOfOpt other)), m)

/-- Erase node identities from an expression (structural equality of
`checkAstsEqual`, which compares field by field and ignores identity). -/
def eraseExp : Exp → Exp
  | .nameE _ s c => .nameE 0 s c
  | .numE _ n => .numE 0 n
  | .binop _ l op r => .binop 0 (eraseExp l) op (eraseExp r)

mutual

/-- Erase identities from a statement. -/
def eraseStm : Stm → Stm
  | .assign _ tgts v => .assign 0 (tgts.map eraseExp) (eraseExp v)
  | .augAssign _ t op v => .augAssign 0 (eraseExp t) op (eraseExp v)
  | .ifStm _ t body => .ifStm 0 (eraseExp t) (eraseStmList body)
  | .funcDef _ f body => .funcDef 0 f (eraseStmList body)
  | .exprStm _ e => .exprStm 0 (eraseExp e)

/-- Erase identities from a list of statements. -/
def eraseStmList : List Stm → List Stm
  | [] => []
  | s :: rest => eraseStm s :: eraseStmList rest

end

/-- Erase identities from a module. -/
def eraseMod (m : Mod) : Mod :=
  { nid := 0, body := eraseStmList m.body }

/-! ### `to_tree_str` (lines 222-247 of `codegen.py`)

The function receives an AST node, a raw string, or an int; AST nodes have a
`__dict__`, optionally the `__pasta__` formatting dict, and `iter_fields`
yields `(field, value)` pairs whose values are lists of nodes, single nodes,
primitives, or `None`.  `print` writes to standard output; the model threads
the produced standard-output text explicitly and records the function's
return value separately. -/

mutual

/-- An argument of `to_tree_str`: an AST node (its `astlib.dump` text, its
optional `__pasta__` entries, its fields), or a `str`/`int` primitive (its
printed text). -/
inductive DTree where
  | nodeD (dump : String) (pasta : Option (List (String × String)))
      (fields : DFields)
  | prim (txt : String)

/-- The `(field name, value)` pairs yielded by `astlib.iter_fields`. -/
inductive DFields where
  | fnil
  | fcons (fieldName : String) (v : DFld) (rest : DFields)

/-- A field value: a list of children, a single child, or `None`. -/
inductive DFld where
  | lst (items : DItems)
  | one (t : DTree)
  | nofld

/-- The items of a list-valued field. -/
inductive DItems where
  | inil
  | icons (t : DTree) (rest : DItems)

end

/-- One `print('%s%s' % (indent, text))` call: the line written to stdout. -/
def printLine (indent text : String) : String := indent ++ text ++ "\n"

/-- The `__pasta__` attribute lines
(`print('%s  %s -> "%s"' % (indent, attr, value))`). -/
def pastaLines (indent : String) : List (String × String) → String
  | [] => ""
  | (a, v) :: rest =>
    printLine indent ("  " ++ a ++ " -> \"" ++ v ++ "\"") ++ pastaLines indent rest

mutual

/-- Model of `to_tree_str` from `codegen.py`: first component is the text written to
standard output, second the function's return value — `None` on every path
(the bare `return` of the primitive branch and falling off the end). -/
def to_tree_str (node : DTree) (indent : String) : String × Option String :=
  match node with
  | .prim txt => (printLine indent txt, none)
  | .nodeD dump pasta fields =>
    let hd := printLine indent dump ++
      (match pasta with
       | some entries => pastaLines indent entries
       | none => "")
    (hd ++ fieldsOut fields indent, none)

/-- The field loop of `to_tree_str`. -/
def fieldsOut (fs : DFields) (indent : String) : String :=
  match fs with
  | .fnil => ""
  | .fcons fieldName v rest =>
    printLine indent fieldName ++
    (match v with
     | .lst items => itemsOut items indent
     | .one t => (to_tree_str t (indent ++ "    ")).1
     | .nofld => "") ++
    fieldsOut rest indent

/-- The list-item loop of `to_tree_str`. -/
def itemsOut (its : DItems) (indent : String) : String :=
  match its with
  | .inil => ""
  | .icons t rest =>
    (to_tree_str t (indent ++ "    ")).1 ++ itemsOut rest indent

end

/-! ## Theorems -/

/-- A marker-free character list passes through the `_add_code` scanner
unchanged. -/
theorem replaceMarkerAux_of_hasMarker_false (ind : List Char) :
    ∀ l : List Char, hasMarker l = false → replaceMarkerAux ind 0 l = l := by
  intro l
  induction l with
  | nil => intro _; rfl
  | cons c rest ih =>
    intro h
    simp only [hasMarker, Bool.or_eq_false_iff] at h
    obtain ⟨h1, h2⟩ := h
    simp only [replaceMarkerAux]
    rw [if_neg (by simpa using h1), ih h2]

/-- A marker-free string passes through `_add_code`'s substitution
unchanged. -/
theorem replaceIndentStr_of_noMarker (ind s : String) (h : noMarker s) :
    replaceIndentStr ind s = s := by
  unfold replaceIndentStr replaceMarker
  rw [replaceMarkerAux_of_hasMarker_false ind.toList s.toList h]
  cases s
  rfl

/-- A single space is marker-free. -/
theorem replaceIndentStr_space (ind : String) : replaceIndentStr ind " " = " " :=
  replaceIndentStr_of_noMarker ind " " (by decide)

/-- Appending on the left preserves the string's character data. -/
theorem toList_append (a b : String) : (a ++ b).toList = a.toList ++ b.toList := by
  cases a
  cases b
  rfl

/-- A marker in the right part is a marker in the concatenation. -/
theorem hasMarker_append_right (l r : List Char) (h : hasMarker r = true) :
    hasMarker (l ++ r) = true := by
  induction l with
  | nil => simpa using h
  | cons c rest ih =>
    simp only [List.cons_append, hasMarker, Bool.or_eq_true]
    exact Or.inr ih

/-- A marker in the left part is a marker in the concatenation: the matched
window has the marker's full ten characters, so extending the list to the
right does not change it. -/
theorem hasMarker_append_left (l r : List Char) (h : hasMarker l = true) :
    hasMarker (l ++ r) = true := by
  induction l with
  | nil => simp [hasMarker] at h
  | cons c rest ih =>
    simp only [hasMarker, Bool.or_eq_true, beq_iff_eq] at h
    rcases h with h | h
    · have hlen : 10 ≤ (c :: rest).length := by
        have := congrArg List.length h
        simp only [List.length_take] at this
        have hm : markerChars.length = 10 := by decide
        omega
      simp only [List.cons_append, hasMarker, Bool.or_eq_true, beq_iff_eq]
      left
      change List.take 10 ((c :: rest) ++ r) = markerChars
      rw [List.take_append_eq_append_take, h]
      have h0 : 10 - (c :: rest).length = 0 := by omega
      rw [h0]
      simp
    · simp only [List.cons_append, hasMarker, Bool.or_eq_true]
      exact Or.inr (ih h)

/-- Splitting marker-freedom over concatenation. -/
theorem noMarker_append {a b : String} (h : noMarker (a ++ b)) :
    noMarker a ∧ noMarker b := by
  unfold noMarker at h ⊢
  rw [toList_append] at h
  constructor
  · by_contra ha
    rw [Bool.not_eq_false] at ha
    rw [hasMarker_append_left a.toList b.toList ha] at h
    exact Bool.noConfusion h
  · by_contra hb
    rw [Bool.not_eq_false] at hb
    rw [hasMarker_append_right a.toList b.toList hb] at h
    exact Bool.noConfusion h

/-- A fully annotated literal node prints back exactly its source segment. -/
theorem renderLeaf_of_leafSrc (leaf : ALeaf) (seg : String)
    (h : leafSrc leaf = some seg) : renderLeaf "" leaf = seg := by
  cases leaf with
  | numL n st =>
    cases hp : fget st "prefix" with
    | none => simp [leafSrc, hp] at h
    | some p =>
      cases hc : fget st "content" with
      | none => simp [leafSrc, hp, hc] at h
      | some c =>
        cases hs : fget st "suffix" with
        | none => simp [leafSrc, hp, hc, hs] at h
        | some s =>
          simp only [leafSrc, hp, hc, hs] at h
          by_cases hm : noMarker p ∧ noMarker c ∧ noMarker s
          · rw [if_pos hm] at h
            obtain ⟨m1, m2, m3⟩ := hm
            cases h
            simp only [renderLeaf, pfxFrag, sfxFrag, hp, hc, hs,
              Option.getD_some, replaceIndentStr_of_noMarker _ _ m1,
              replaceIndentStr_of_noMarker _ _ m2,
              replaceIndentStr_of_noMarker _ _ m3]
          · rw [if_neg hm] at h
            exact Option.noConfusion h
  | strL sv st =>
    cases hp : fget st "prefix" with
    | none => simp [leafSrc, hp] at h
    | some p =>
      cases hc : fget st "content" with
      | none => simp [leafSrc, hp, hc] at h
      | some c =>
        cases hs : fget st "suffix" with
        | none => simp [leafSrc, hp, hc, hs] at h
        | some s =>
          simp only [leafSrc, hp, hc, hs] at h
          by_cases hm : noMarker p ∧ noMarker c ∧ noMarker s
          · rw [if_pos hm] at h
            obtain ⟨m1, m2, m3⟩ := hm
            cases hf : fget st "fmt" with
            | none =>
              simp only [hf] at h
              cases h
              simp only [renderLeaf, pfxFrag, sfxFrag, hp, hc, hs, hf,
                Option.getD_some, replaceIndentStr_of_noMarker _ _ m1,
                replaceIndentStr_of_noMarker _ _ m2,
                replaceIndentStr_of_noMarker _ _ m3]
            | some f =>
              simp only [hf] at h
              by_cases hf0 : f = ""
              · rw [if_pos hf0] at h
                cases h
                simp only [renderLeaf, pfxFrag, sfxFrag, hp, hc, hs, hf,
                  Option.getD_some, if_pos hf0,
                  replaceIndentStr_of_noMarker _ _ m1,
                  replaceIndentStr_of_noMarker _ _ m2,
                  replaceIndentStr_of_noMarker _ _ m3]
              · rw [if_neg hf0] at h
                by_cases hfm : noMarker f
                · rw [if_pos hfm] at h
                  cases h
                  simp only [renderLeaf, pfxFrag, sfxFrag, hp, hc, hs, hf,
                    Option.getD_some, if_neg hf0,
                    replaceIndentStr_of_noMarker _ _ m1,
                    replaceIndentStr_of_noMarker _ _ m2,
                    replaceIndentStr_of_noMarker _ _ m3,
                    replaceIndentStr_of_noMarker _ _ hfm]
                  simp [String.append_assoc]
                · rw [if_neg hfm] at h
                  exact Option.noConfusion h
          · rw [if_neg hm] at h
            exact Option.noConfusion h
  | bytesL sv st =>
    cases hp : fget st "prefix" with
    | none => simp [leafSrc, hp] at h
    | some p =>
      cases hc : fget st "content" with
      | none => simp [leafSrc, hp, hc] at h
      | some c =>
        cases hs : fget st "suffix" with
        | none => simp [leafSrc, hp, hc, hs] at h
        | some s =>
          simp only [leafSrc, hp, hc, hs] at h
          by_cases hm : noMarker p ∧ noMarker c ∧ noMarker s
          · rw [if_pos hm] at h
            obtain ⟨m1, m2, m3⟩ := hm
            cases h
            simp only [renderLeaf, pfxFrag, sfxFrag, hp, hc, hs,
              Option.getD_some, replaceIndentStr_of_noMarker _ _ m1,
              replaceIndentStr_of_noMarker _ _ m2,
              replaceIndentStr_of_noMarker _ _ m3]
          · rw [if_neg hm] at h
            exact Option.noConfusion h
  | constL isEll sv st =>
    cases hp : fget st "prefix" with
    | none => simp [leafSrc, hp] at h
    | some p =>
      cases hc : fget st "content" with
      | none => simp [leafSrc, hp, hc] at h
      | some c =>
        cases hs : fget st "suffix" with
        | none => simp [leafSrc, hp, hc, hs] at h
        | some s =>
          simp only [leafSrc, hp, hc, hs] at h
          by_cases hm : noMarker p ∧ noMarker c ∧ noMarker s ∧
              (isEll = true → c = "...")
          · rw [if_pos hm] at h
            obtain ⟨m1, m2, m3, m4⟩ := hm
            cases h
            cases isEll with
            | true =>
              simp only [renderLeaf, pfxFrag, sfxFrag, hp, hc, hs,
                Option.getD_some, m4 rfl]
              simp [replaceIndentStr_of_noMarker _ _ m1,
                replaceIndentStr_of_noMarker _ _ m3,
                replaceIndentStr_of_noMarker _ _ (show noMarker "..." by decide)]
            | false =>
              simp only [renderLeaf, pfxFrag, sfxFrag, hp, hc, hs,
                Option.getD_some, Bool.false_eq_true, if_false,
                replaceIndentStr_of_noMarker _ _ m1,
                replaceIndentStr_of_noMarker _ _ m2,
                replaceIndentStr_of_noMarker _ _ m3]
          · rw [if_neg hm] at h
            exact Option.noConfusion h

/-- A fully annotated child list prints back its concatenated segments. -/
theorem renderBody_of_bodySrc :
    ∀ (xs : List ALeaf) (b : String), bodySrc xs = some b →
      renderBody "" xs = b := by
  intro xs
  induction xs with
  | nil => intro b h; cases h; rfl
  | cons x rest ih =>
    intro b h
    cases hx : leafSrc x with
    | none => simp [bodySrc, hx] at h
    | some a =>
      cases hr : bodySrc rest with
      | none => simp [bodySrc, hx, hr] at h
      | some bb =>
        simp only [bodySrc, hx, hr] at h
        cases h
        unfold renderBody
        rw [renderLeaf_of_leafSrc x a hx, ih bb hr]

/-- Round trip on the marker-free subdomain: a fully annotated tree, all of
whose stored fragments are free of the indent marker, prints back exactly the
concatenation of its fragments. -/
theorem round_trip_marker_free (t : ATree) (S : String)
    (h : treeSrc t = some S) : to_strT t = S := by
  cases hp : fget t.st "prefix" with
  | none => simp [treeSrc, hp] at h
  | some p =>
    cases hs : fget t.st "suffix" with
    | none => simp [treeSrc, hp, hs] at h
    | some s =>
      simp only [treeSrc, hp, hs] at h
      by_cases hm : noMarker p ∧ noMarker s ∧ noMarker ((fget t.st "bom").getD "")
      · rw [if_pos hm] at h
        obtain ⟨m1, m2, m3⟩ := hm
        cases hb : bodySrc t.body with
        | none => rw [hb] at h; exact Option.noConfusion h
        | some b =>
          rw [hb] at h
          cases h
          unfold to_strT renderTree
          rw [renderBody_of_bodySrc t.body b hb]
          simp only [pfxFrag, sfxFrag, hp, hs, Option.getD_some,
            replaceIndentStr_of_noMarker _ _ m1,
            replaceIndentStr_of_noMarker _ _ m2]
          cases hbom : fget t.st "bom" with
          | none => simp
          | some bomv =>
            rw [hbom] at m3
            simp only [Option.getD_some] at m3
            simp [replaceIndentStr_of_noMarker _ _ m3, String.append_assoc]
      · rw [if_neg hm] at h
        exact Option.noConfusion h

/-- Lifting a raw fully annotated literal into the marker-free subdomain:
when the whole source segment is marker-free, so is each of its fragments. -/
theorem leafSrc_of_raw (x : ALeaf) (seg : String)
    (h : leafSrcRaw x = some seg) (hm : noMarker seg) : leafSrc x = some seg := by
  cases x with
  | numL n st =>
    cases hp : fget st "prefix" with
    | none => simp [leafSrcRaw, hp] at h
    | some p =>
      cases hc : fget st "content" with
      | none => simp [leafSrcRaw, hp, hc] at h
      | some c =>
        cases hs : fget st "suffix" with
        | none => simp [leafSrcRaw, hp, hc, hs] at h
        | some s =>
          simp only [leafSrcRaw, hp, hc, hs] at h
          cases h
          obtain ⟨h12, h3⟩ := noMarker_append hm
          obtain ⟨h1, h2⟩ := noMarker_append h12
          simp only [leafSrc, hp, hc, hs]
          rw [if_pos ⟨h1, h2, h3⟩]
  | strL sv st =>
    cases hp : fget st "prefix" with
    | none => simp [leafSrcRaw, hp] at h
    | some p =>
      cases hc : fget st "content" with
      | none => simp [leafSrcRaw, hp, hc] at h
      | some c =>
        cases hs : fget st "suffix" with
        | none => simp [leafSrcRaw, hp, hc, hs] at h
        | some s =>
          simp only [leafSrcRaw, hp, hc, hs] at h
          cases hf : fget st "fmt" with
          | none =>
            rw [hf] at h
            dsimp only at h
            cases h
            obtain ⟨h12, h3⟩ := noMarker_append hm
            obtain ⟨h1, h2⟩ := noMarker_append h12
            simp only [leafSrc, hp, hc, hs, hf]
            rw [if_pos ⟨h1, h2, h3⟩]
          | some f =>
            rw [hf] at h
            dsimp only at h
            by_cases hf0 : f = ""
            · rw [if_pos hf0] at h
              cases h
              obtain ⟨h12, h3⟩ := noMarker_append hm
              obtain ⟨h1, h2⟩ := noMarker_append h12
              simp only [leafSrc, hp, hc, hs, hf]
              rw [if_pos ⟨h1, h2, h3⟩, if_pos hf0]
            · rw [if_neg hf0] at h
              cases h
              obtain ⟨h123, h3⟩ := noMarker_append hm
              obtain ⟨h1f, h2⟩ := noMarker_append h123
              obtain ⟨h1, hfm⟩ := noMarker_append h1f
              simp only [leafSrc, hp, hc, hs, hf]
              rw [if_pos ⟨h1, h2, h3⟩, if_neg hf0, if_pos hfm]
  | bytesL sv st =>
    cases hp : fget st "prefix" with
    | none => simp [leafSrcRaw, hp] at h
    | some p =>
      cases hc : fget st "content" with
      | none => simp [leafSrcRaw, hp, hc] at h
      | some c =>
        cases hs : fget st "suffix" with
        | none => simp [leafSrcRaw, hp, hc, hs] at h
        | some s =>
          simp only [leafSrcRaw, hp, hc, hs] at h
          cases h
          obtain ⟨h12, h3⟩ := noMarker_append hm
          obtain ⟨h1, h2⟩ := noMarker_append h12
          simp only [leafSrc, hp, hc, hs]
          rw [if_pos ⟨h1, h2, h3⟩]
  | constL isEll sv st =>
    cases hp : fget st "prefix" with
    | none => simp [leafSrcRaw, hp] at h
    | some p =>
      cases hc : fget st "content" with
      | none => simp [leafSrcRaw, hp, hc] at h
      | some c =>
        cases hs : fget st "suffix" with
        | none => simp [leafSrcRaw, hp, hc, hs] at h
        | some s =>
          simp only [leafSrcRaw, hp, hc, hs] at h
          by_cases he : isEll = true → c = "..."
          · rw [if_pos he] at h
            cases h
            obtain ⟨h12, h3⟩ := noMarker_append hm
            obtain ⟨h1, h2⟩ := noMarker_append h12
            simp only [leafSrc, hp, hc, hs]
            rw [if_pos ⟨h1, h2, h3, he⟩]
          · rw [if_neg he] at h
            exact Option.noConfusion h

/-- Lifting a raw fully annotated child list into the marker-free
subdomain. -/
theorem bodySrc_of_raw :
    ∀ (xs : List ALeaf) (b : String), bodySrcRaw xs = some b → noMarker b →
      bodySrc xs = some b := by
  intro xs
  induction xs with
  | nil =>
    intro b h _
    cases h
    rfl
  | cons x rest ih =>
    intro b h hm
    cases hx : leafSrcRaw x with
    | none => simp [bodySrcRaw, hx] at h
    | some a =>
      cases hr : bodySrcRaw rest with
      | none => simp [bodySrcRaw, hx, hr] at h
      | some bb =>
        simp only [bodySrcRaw, hx, hr] at h
        cases h
        obtain ⟨h1, h2⟩ := noMarker_append hm
        unfold bodySrc
        rw [leafSrc_of_raw x a hx h1, ih bb hr h2]

/-- Lifting a raw fully annotated tree into the marker-free subdomain. -/
theorem treeSrc_of_raw (t : ATree) (S : String)
    (h : treeSrcRaw t = some S) (hm : noMarker S) : treeSrc t = some S := by
  cases hp : fget t.st "prefix" with
  | none => simp [treeSrcRaw, hp] at h
  | some p =>
    cases hs : fget t.st "suffix" with
    | none => simp [treeSrcRaw, hp, hs] at h
    | some s =>
      cases hb : bodySrcRaw t.body with
      | none => simp [treeSrcRaw, hp, hs, hb] at h
      | some b =>
        simp only [treeSrcRaw, hp, hs, hb] at h
        cases h
        obtain ⟨h123, h4⟩ := noMarker_append hm
        obtain ⟨h12, h3⟩ := noMarker_append h123
        obtain ⟨h1, h2⟩ := noMarker_append h12
        simp only [treeSrc, hp, hs]
        rw [if_pos ⟨h1, h4, h2⟩]
        rw [bodySrc_of_raw t.body b hb h3]

/-- A concrete annotated tree for the source text `"x = '@@indent@@'\n"`, a
valid source whose string literal happens to contain the printer's internal
marker text: every fragment is stored verbatim. -/
def wMarkerTree : ATree :=
  { st := [("prefix", ""), ("suffix", "")],
    body := [.strL "@@indent@@"
      [("prefix", "x = "), ("content", "'@@indent@@'"), ("suffix", "\n")]] }

/-- C1 counterexample: a source containing the literal marker text does not
round-trip — `_add_code` substitutes the marker inside the verbatim stored
content, so the annotated tree of `x = '@@indent@@'\n` renders as
`x = ''\n`, not byte-for-byte the original. -/
theorem round_trip_marker_counterexample :
    treeSrcRaw wMarkerTree = some "x = '@@indent@@'\n" ∧
    to_strT wMarkerTree = "x = ''\n" ∧
    to_strT wMarkerTree ≠ "x = '@@indent@@'\n" :=
  ⟨by decide, by decide, by decide⟩

/-- C1 (amended). Round-trip identity for marker-free sources: a tree
produced by parsing source text `S` (modelled as a tree whose stored
formatting fragments concatenate back to `S`, the defining property of the
external annotator), where `S` does not contain the printer's internal
indentation marker `@@indent@@`, renders with no intervening mutation to
exactly `S`. -/
theorem round_trip_identity (t : ATree) (S : String)
    (h : treeSrcRaw t = some S) (hm : noMarker S) : to_strT t = S :=
  round_trip_marker_free t S (treeSrc_of_raw t S h hm)

/-- A concrete annotated tree for the source text `"x = 1\n"`. -/
def wTree : ATree :=
  { st := [("prefix", ""), ("suffix", "")],
    body := [.numL 1 [("prefix", "x = "), ("content", "1"), ("suffix", "\n")]] }

/-- C1 witness: the amended round-trip theorem applied to a concrete
annotated tree of a marker-free source. -/
theorem round_trip_identity_witness :
    treeSrcRaw wTree = some "x = 1\n" ∧ to_strT wTree = "x = 1\n" :=
  ⟨by decide, round_trip_identity wTree "x = 1\n" (by decide) (by decide)⟩

/-- C2. Dependency invalidation in `Printer.attr`: when the attribute is due
for emission (memoization table present, not yet emitted) and a fragment is
stored, then (i) if some declared dependency has a stored snapshot differing
from the node's live value, the caller-supplied default is emitted instead of
the stored fragment, and (ii) if every declared dependency's live value
equals its snapshot, the stored fragment itself is emitted. -/
theorem attr_dependency_invalidation (p : PState) (n : PNode)
    (attrName : String) (deps : List String) (default : Option String)
    (sb : Bool) (done : List String) (frag : String)
    (hinfo : n.printerInfo = some done) (hnew : attrName ∉ done)
    (hstored : fmtGet n attrName = some frag) :
    ((∃ d ∈ deps, fmtHas n (d ++ "__src") = true ∧
        getattrOpt n d ≠ fmtGet n (d ++ "__src")) →
      (attr p n attrName deps default sb).1 =
        addCode
          (if sb && !(p.code = "") && lastIsAlnum p.code &&
              (default.getD "" = "" || firstIsAlnum (default.getD "")) then
            addCode p " "
          else p) (default.getD "")) ∧
    ((∀ d ∈ deps, getattrOpt n d = fmtGet n (d ++ "__src")) →
      (attr p n attrName deps default sb).1 =
        addCode
          (if sb && !(p.code = "") && lastIsAlnum p.code &&
              (frag = "" || firstIsAlnum frag) then
            addCode p " "
          else p) frag) := by
  constructor
  · rintro ⟨d, hd, hhas, hne⟩
    have hstale : attrStale n deps = true := by
      unfold attrStale
      rw [List.any_eq_true]
      refine ⟨d, hd, ?_⟩
      rw [hhas]
      simp [hne]
    simp only [attr, hinfo, if_neg hnew, hstored, hstale]
    simp
  · intro hall
    have hstale : attrStale n deps = false := by
      unfold attrStale
      rw [List.any_eq_false]
      intro d hd
      simp [hall d hd]
    simp only [attr, hinfo, if_neg hnew, hstored, hstale]
    simp

/-- A node whose stored fragment for `fmt_x` declares dependency `n`, with a
snapshot `n__src = "1"` that no longer matches the live value `n = "2"`. -/
def wAttrNode : PNode :=
  { fmtStore := [("fmt_x", "FRAG"), ("n__src", "1")],
    attrs := [("n", "2")],
    printerInfo := some [] }

/-- C2 witness: on a node with a stale dependency snapshot, `attr` emits the
caller-supplied default, not the stored fragment. -/
theorem attr_dependency_invalidation_witness :
    (attr ⟨"", ""⟩ wAttrNode "fmt_x" ["n"] (some "DEF") false).1 =
      addCode ⟨"", ""⟩ "DEF" := by
  have h := (attr_dependency_invalidation ⟨"", ""⟩ wAttrNode "fmt_x" ["n"]
    (some "DEF") false [] "FRAG" rfl (by simp) (by decide)).1
    ⟨"n", by simp, by decide, by decide⟩
  simpa using h

/-- C9 counterexample: emitting an empty token with `separate_before` set,
after a buffer ending in an alphanumeric character, still inserts a
separating space — although an empty token has no first character, let alone
an alphanumeric one. -/
theorem token_empty_token_counterexample :
    (token ⟨"a", ""⟩ "" true).code = "a " ∧
    (token ⟨"a", ""⟩ "" true).code ≠ "a" := by
  constructor <;> decide

/-- C9 (amended). `Printer.token` inserts a single separating space exactly
when `separate_before` is set, the buffer is non-empty and ends in an
alphanumeric character, and the token is empty or starts with an alphanumeric
character; in every other case the token is appended with no space. -/
theorem token_separating_space (p : PState) (tv : String) (sb : Bool) :
    ((sb = true ∧ p.code ≠ "" ∧ lastIsAlnum p.code = true ∧
        (tv = "" ∨ firstIsAlnum tv = true)) →
      (token p tv sb).code = p.code ++ " " ++ replaceIndentStr p.indent tv) ∧
    ((sb = false ∨ p.code = "" ∨ lastIsAlnum p.code = false ∨
        (tv ≠ "" ∧ firstIsAlnum tv = false)) →
      (token p tv sb).code = p.code ++ replaceIndentStr p.indent tv) := by
  constructor
  · rintro ⟨h1, h2, h3, h4⟩
    have hcond : (sb && !(p.code = "") && lastIsAlnum p.code &&
        (tv = "" || firstIsAlnum tv)) = true := by
      rcases h4 with h4 | h4 <;> simp [h1, h2, h3, h4]
    simp [token, hcond, addCode, replaceIndentStr_space, String.append_assoc]
  · intro h
    have hcond : (sb && !(p.code = "") && lastIsAlnum p.code &&
        (tv = "" || firstIsAlnum tv)) = false := by
      rcases h with h | h | h | ⟨ha, hb⟩
      · simp [h]
      · simp [h]
      · simp [h]
      · simp [ha, hb]
    simp [token, hcond, addCode]

/-- C9 witness: two alphanumeric characters meeting with `separate_before`
set get exactly one separating space. -/
theorem token_separating_space_witness :
    (token ⟨"a", ""⟩ "b" true).code = "a b" :=
  ((token_separating_space ⟨"a", ""⟩ "b" true).1
    ⟨rfl, by decide, by decide, Or.inr (by decide)⟩).trans (by decide)

/-- The comparison key, propositionally. -/
theorem keyGt_eq_true_iff (a b : String × Nat) :
    keyGt a b = true ↔ (b.2 < a.2 ∨ (a.2 = b.2 ∧ a.1.length < b.1.length)) := by
  simp [keyGt]

/-- Negation of the comparison key, propositionally. -/
theorem keyGt_eq_false_iff (a b : String × Nat) :
    keyGt a b = false ↔ (a.2 < b.2 ∨ (a.2 = b.2 ∧ b.1.length ≤ a.1.length)) := by
  rw [show (keyGt a b = false) ↔ ¬(keyGt a b = true) by simp]
  rw [keyGt_eq_true_iff]
  omega

/-- No entry strictly beats itself. -/
theorem keyGt_irrefl (a : String × Nat) : keyGt a a = false := by
  rw [keyGt_eq_false_iff]
  omega

/-- Strict comparison is transitive. -/
theorem keyGt_trans {a b c : String × Nat} (h1 : keyGt a b = true)
    (h2 : keyGt b c = true) : keyGt a c = true := by
  rw [keyGt_eq_true_iff] at h1 h2 ⊢
  omega

/-- Non-strict comparison (the negation) is transitive. -/
theorem keyGt_neg_trans {a b c : String × Nat} (h1 : keyGt a b = false)
    (h2 : keyGt b c = false) : keyGt a c = false := by
  rw [keyGt_eq_false_iff] at h1 h2 ⊢
  omega

/-- The fold implementing Python `max` returns an element of the list that no
element strictly beats. -/
theorem pickMax_fold_spec :
    ∀ (xs : List (String × Nat)) (x : String × Nat),
      (xs.foldl (fun best c => if keyGt c best then c else best) x ∈ x :: xs) ∧
      (∀ y ∈ x :: xs,
        keyGt y (xs.foldl (fun best c => if keyGt c best then c else best) x)
          = false) := by
  intro xs
  induction xs with
  | nil =>
    intro x
    refine ⟨by simp, ?_⟩
    intro y hy
    simp only [List.mem_singleton] at hy
    subst hy
    exact keyGt_irrefl y
  | cons c rest ih =>
    intro x
    simp only [List.foldl_cons]
    by_cases hcx : keyGt c x = true
    · rw [if_pos hcx]
      obtain ⟨ihmem, ihbest⟩ := ih c
      refine ⟨List.mem_cons_of_mem x ihmem, ?_⟩
      intro y hy
      rcases List.mem_cons.mp hy with rfl | hy2
      · by_contra hxr
        rw [Bool.not_eq_false] at hxr
        have := keyGt_trans hcx hxr
        rw [ihbest c (List.mem_cons_self c rest)] at this
        exact Bool.noConfusion this
      · exact ihbest y hy2
    · rw [if_neg hcx]
      rw [Bool.not_eq_true] at hcx
      obtain ⟨ihmem, ihbest⟩ := ih x
      constructor
      · rcases List.mem_cons.mp ihmem with h | h
        · rw [h]; exact List.mem_cons_self x (c :: rest)
        · exact List.mem_cons_of_mem x (List.mem_cons_of_mem c h)
      · intro y hy
        rcases List.mem_cons.mp hy with rfl | hy2
        · exact ihbest y (List.mem_cons_self y rest)
        · rcases List.mem_cons.mp hy2 with rfl | hy3
          · exact keyGt_neg_trans hcx (ihbest x (List.mem_cons_self x rest))
          · exact ihbest y (List.mem_cons_of_mem x hy3)

/-- C3 counterexample: with the tied profile `{"  ": 3, "\t": 3}` the
selection rule of `to_str` yields the tab — the *shorter* delta string — not
the two-space form the claim asserts, in either insertion order, and likewise
from the raw walk of stored `indent_diff` fragments. -/
theorem indent_tie_break_counterexample :
    inferFromCounts [("  ", 3), ("\t", 3)] = some "\t" ∧
    inferFromCounts [("\t", 3), ("  ", 3)] = some "\t" ∧
    inferIndent ["  ", "\t", "  ", "\t", "  ", "\t"] = some "\t" ∧
    ¬ inferFromCounts [("  ", 3), ("\t", 3)] = some "  " :=
  ⟨by decide, by decide, by decide, by decide⟩

/-- C3 (amended). Default-style inference picks an entry of the profile with
the highest occurrence count, breaking count ties by preferring the shorter
delta string (so the tie `{"  ": 3, "\t": 3}` resolves to the tab), and is a
function of the profile, hence deterministic for a fixed tree. -/
theorem indent_inference_max_count_shorter_tie (counts : List (String × Nat))
    (res : String × Nat) (h : pickMax counts = some res) :
    res ∈ counts ∧
    (∀ y ∈ counts, y.2 < res.2 ∨ (y.2 = res.2 ∧ res.1.length ≤ y.1.length)) ∧
    inferFromCounts counts = some res.1 := by
  cases counts with
  | nil => exact Option.noConfusion h
  | cons x xs =>
    simp only [pickMax, Option.some.injEq] at h
    obtain ⟨hmem, hbest⟩ := pickMax_fold_spec xs x
    rw [h] at hmem hbest
    refine ⟨hmem, ?_, ?_⟩
    · intro y hy
      have := hbest y hy
      rw [keyGt_eq_false_iff] at this
      exact this
    · simp [inferFromCounts, pickMax, h]

/-- C3 witness: the amended selection rule applied to the tied profile
`{"  ": 3, "\t": 3}` — the tab is selected. -/
theorem indent_inference_max_count_shorter_tie_witness :
    ("\t", 3) ∈ [("  ", 3), ("\t", 3)] ∧
    (∀ y ∈ [("  ", 3), ("\t", 3)],
      y.2 < 3 ∨ (y.2 = 3 ∧ ("\t").length ≤ y.1.length)) ∧
    inferFromCounts [("  ", 3), ("\t", 3)] = some "\t" := by
  have h := indent_inference_max_count_shorter_tie [("  ", 3), ("\t", 3)]
    ("\t", 3) (by decide)
  simpa using h

/-- C7. `Printer.visit` wraps internal errors: whenever the dispatched base
visit raises one of `TypeError, ValueError, IndexError, KeyError`, `visit`
re-raises it as `PrintError`, and consequently no error escaping `visit` is
ever one of those four internal kinds. -/
theorem visit_wraps_internal_errors (superVisit : PNode → Except PyErr PNode)
    (n : PNode) :
    (∀ e, superVisit { n with printerInfo := some [] } = .error e →
      isInternalErr e = true →
      visitNode superVisit n = .error (.printError (errMsg e))) ∧
    (∀ e, visitNode superVisit n = .error e → isInternalErr e = false) := by
  constructor
  · intro e he hint
    simp [visitNode, he, hint]
  · intro e he
    simp only [visitNode] at he
    cases hs : superVisit { n with printerInfo := some [] } with
    | ok n1 =>
      rw [hs] at he
      dsimp only at he
      exact Except.noConfusion he
    | error e0 =>
      rw [hs] at he
      dsimp only at he
      by_cases hint : isInternalErr e0 = true
      · rw [if_pos hint] at he
        cases he
        rfl
      · rw [if_neg hint] at he
        cases he
        rw [Bool.not_eq_true] at hint
        exact hint

/-- C7 witness: a base visit raising a `TypeError` surfaces from `visit` as a
`PrintError` carrying its message. -/
theorem visit_wraps_internal_errors_witness :
    visitNode (fun _ => .error (.typeError "boom")) ⟨[], [], none⟩ =
      .error (.printError "boom") :=
  (visit_wraps_internal_errors (fun _ => .error (.typeError "boom"))
    ⟨[], [], none⟩).1 (.typeError "boom") rfl rfl

/-- C8 evidence: on an interpolated string whose values are the literal
segment `"a"` followed by one embedded expression (rendered `"X"`) and with
no stored content, `visit_JoinedStr` synthesizes `placeholder(len(parts))`,
i.e. ordinal 1 — counting the literal segment — although the embedded
expression has position 0 in the embedded-expression list.  Ordinal-0
substitution therefore never fires and the placeholder text leaks into the
rendering, instead of the spec-mandated synthesis (`specSynthesis`, ordinals
matching the embedded-expression list) which yields `'aX'`. -/
theorem joinedstr_placeholder_skew :
    visitJoinedStrSynth [.strSeg "a", .formatted "X"] =
      pyReprStr ("a" ++ placeholder 1) ∧
    specSynthesis [.strSeg "a", .formatted "X"] = pyReprStr "aX" ∧
    visitJoinedStrSynth [.strSeg "a", .formatted "X"] ≠
      specSynthesis [.strSeg "a", .formatted "X"] :=
  ⟨by decide, by decide, by decide⟩

/-- A one-node tree: `Num(n=1)` with its single field `n` holding the int
`1`. -/
def demoNum : DTree :=
  .nodeD "Num(n=1)" none (.fcons "n" (.one (.prim "1")) .fnil)

/-- C10 evidence: `to_tree_str` writes the indentation-nested diagnostic dump
to standard output and returns `None` on every path — it does not return the
dump as its text result, although its own docstring says it returns the
representation. -/
theorem to_tree_str_prints_and_returns_none :
    (to_tree_str demoNum "").1 = "Num(n=1)\nn\n    1\n" ∧
    (to_tree_str demoNum "").2 = none ∧
    (to_tree_str demoNum "").2 ≠ some ((to_tree_str demoNum "").1) :=
  ⟨by decide, rfl, by decide⟩

/-- Every outcome of `inline_name` either raised no exception or left the
tree exactly as given: every `raise` in the source precedes the first
mutation. -/
theorem inline_name_cases (sc : Scope) (m : Mod) (name : String) :
    (inline_name sc m name).1 = none ∨ (inline_name sc m name).2 = m := by
  simp only [inline_name]
  repeat' split
  all_goals first | (left; rfl) | (right; rfl)

/-- C4. Validation precedes mutation in `inline_name`: (i) whenever the call
raises (any exception), the returned tree is the input tree, untouched; and
(ii) whenever every validation passes — the name resolves, its definition is
a `Name` node, the definition's parent is an `Assign` whose own parent is the
module root, and no recorded reference is in a store position — the call
raises nothing: the rewriting phase cannot fail. -/
theorem inline_name_validation_before_mutation (sc : Scope) (m : Mod)
    (name : String) :
    (∀ e, (inline_name sc m name).1 = some e → (inline_name sc m name).2 = m) ∧
    (∀ (entry : NameEntry) (defId : Nat) (sid : String) (c : Ctx) (aid : Nat)
        (tgts : List Exp) (value : Exp),
      lookupName sc name = some entry →
      entry.definition.bind (fun i => findNodeM m i) =
        some (.expR (.nameE defId sid c)) →
      parentOfM m defId = some (.stmR (.assign aid tgts value)) →
      isModRef (parentOfM m aid) = true →
      entry.reads.any (fun r => ctxIsStore (findNodeM m r)) = false →
      (inline_name sc m name).1 = none) := by
  constructor
  · intro e he
    rcases inline_name_cases sc m name with h | h
    · rw [he] at h
      exact Option.noConfusion h
    · exact h
  · intro entry defId sid c aid tgts value h1 h2 h3 h4 h5
    simp only [inline_name, h1, h2, h3, h4, h5]
    simp

/-- The tree of `if define:\n  x = 1\na = x\n`: the definition of `x` lives
inside a conditional, not at module level. -/
def mCond : Mod :=
  { nid := 60,
    body := [
      .ifStm 21 (.nameE 22 "define" .load)
        [.assign 23 [.nameE 24 "x" .store] (.numE 25 1)],
      .assign 26 [.nameE 27 "a" .store] (.nameE 28 "x" .load)] }

/-- The scope table of `mCond` restricted to `x`. -/
def scCond : Scope :=
  { names := [("x", { definition := some 24, reads := [28] })] }

/-- C4 witness: inlining `x` from a conditional raises, and the returned tree
is the untouched input tree. -/
theorem inline_name_validation_before_mutation_witness :
    (inline_name scCond mCond "x").1 =
      some (.inlineError "'x' is not a top-level name") ∧
    (inline_name scCond mCond "x").2 = mCond :=
  ⟨by decide,
   (inline_name_validation_before_mutation scCond mCond "x").1
     (.inlineError "'x' is not a top-level name") (by decide)⟩

/-- Is this node reference a `Name` expression
(`isinstance(name_node.definition, astlib.Name)`)? -/
def isNameRefOpt : Option NodeRef → Bool
  | some (.expR (.nameE _ _ _)) => true
  | _ => false

/-- Is this node reference an `Assign` statement
(`isinstance(assign_node, astlib.Assign)`)? -/
def isAssignRefOpt : Option NodeRef → Bool
  | some (.stmR (.assign _ _ _)) => true
  | _ => false

/-- C5. `inline_name` raises `InlineError` with exactly the enumerated
message for each failed precondition, checked in source order: a non-`Name`
definition reports the offending kind; then a non-`Assign` parent; then a
non-module grandparent; then a store-position reference; and when every
precondition holds it raises nothing. -/
theorem inline_name_error_messages (sc : Scope) (m : Mod) (name : String)
    (entry : NameEntry) (h1 : lookupName sc name = some entry) :
    (∀ other, entry.definition.bind (fun i => findNodeM m i) = other →
      isNameRefOpt other = false →
      (inline_name sc m name).1 = some (.inlineError
        (pyReprStr name ++ " is not a constant; it has type " ++
          typeReprOfOpt other))) ∧
    (∀ defId sid c,
      entry.definition.bind (fun i => findNodeM m i) =
        some (.expR (.nameE defId sid c)) →
      isAssignRefOpt (parentOfM m defId) = false →
      (inline_name sc m name).1 = some (.inlineError
        (pyReprStr name ++ " is not declared in an assignment"))) ∧
    (∀ defId sid c aid tgts value,
      entry.definition.bind (fun i => findNodeM m i) =
        some (.expR (.nameE defId sid c)) →
      parentOfM m defId = some (.stmR (.assign aid tgts value)) →
      isModRef (parentOfM m aid) = false →
      (inline_name sc m name).1 = some (.inlineError
        (pyReprStr name ++ " is not a top-level name"))) ∧
    (∀ defId sid c aid tgts value,
      entry.definition.bind (fun i => findNodeM m i) =
        some (.expR (.nameE defId sid c)) →
      parentOfM m defId = some (.stmR (.assign aid tgts value)) →
      isModRef (parentOfM m aid) = true →
      entry.reads.any (fun r => ctxIsStore (findNodeM m r)) = true →
      (inline_name sc m name).1 = some (.inlineError
        (pyReprStr name ++ " is not a constant"))) ∧
    (∀ defId sid c aid tgts value,
      entry.definition.bind (fun i => findNodeM m i) =
        some (.expR (.nameE defId sid c)) →
      parentOfM m defId = some (.stmR (.assign aid tgts value)) →
      isModRef (parentOfM m aid) = true →
      entry.reads.any (fun r => ctxIsStore (findNodeM m r)) = false →
      (inline_name sc m name).1 = none) := by
  refine ⟨?_, ?_, ?_, ?_, ?_⟩
  · intro other hdef hno
    rcases other with _ | nr
    · simp [inline_name, h1, hdef]
    · rcases nr with _ | s | e
      · simp [inline_name, h1, hdef]
      · simp [inline_name, h1, hdef]
      · rcases e with ⟨i, sid2, c2⟩ | ⟨i, nv⟩ | ⟨i, l, op, r⟩
        · simp [isNameRefOpt] at hno
        · simp [inline_name, h1, hdef]
        · simp [inline_name, h1, hdef]
  · intro defId sid c hdef hno
    rcases hp : parentOfM m defId with _ | nr
    · simp [inline_name, h1, hdef, hp]
    · rcases nr with _ | s | e
      · simp [inline_name, h1, hdef, hp]
      · rcases s with ⟨i, tg, v⟩ | ⟨i, t, op, v⟩ | ⟨i, t, b⟩ | ⟨i, f, b⟩ |
          ⟨i, e2⟩
        · rw [hp] at hno
          simp [isAssignRefOpt] at hno
        · simp [inline_name, h1, hdef, hp]
        · simp [inline_name, h1, hdef, hp]
        · simp [inline_name, h1, hdef, hp]
        · simp [inline_name, h1, hdef, hp]
      · simp [inline_name, h1, hdef, hp]
  · intro defId sid c aid tgts value hdef hpar hmod
    simp [inline_name, h1, hdef, hpar, hmod]
  · intro defId sid c aid tgts value hdef hpar hmod hany
    simp [inline_name, h1, hdef, hpar, hmod, hany]
  · intro defId sid c aid tgts value hdef hpar hmod hany
    simp [inline_name, h1, hdef, hpar, hmod, hany]

/-- The tree of `def func(): pass\nfunc()\n` (the call modelled as a bare
name read). -/
def mFunc : Mod :=
  { nid := 50,
    body := [
      .funcDef 11 "func" [.exprStm 12 (.numE 13 0)],
      .exprStm 14 (.nameE 15 "func" .load)] }

/-- The scope table of `mFunc` restricted to `func`. -/
def scFunc : Scope :=
  { names := [("func", { definition := some 11, reads := [15] })] }

/-- C5 witness: inlining a function name raises the wrong-kind message with
the offending kind spelled out. -/
theorem inline_name_error_messages_witness :
    (inline_name scFunc mFunc "func").1 = some (.inlineError
      "'func' is not a constant; it has type <class 'ast.FunctionDef'>") := by
  have h := (inline_name_error_messages scFunc mFunc "func"
    { definition := some 11, reads := [15] } rfl).1
    (some (.stmR (.funcDef 11 "func" [.exprStm 12 (.numE 13 0)]))) rfl rfl
  exact h.trans (by decide)

/-- The tree of `x = y = z = 1\na = x + y\n`. -/
def mChain : Mod :=
  { nid := 100,
    body := [
      .assign 1 [.nameE 2 "x" .store, .nameE 3 "y" .store, .nameE 4 "z" .store]
        (.numE 5 1),
      .assign 6 [.nameE 7 "a" .store]
        (.binop 8 (.nameE 9 "x" .load) "+" (.nameE 10 "y" .load))] }

/-- The scope table of `mChain` restricted to `y`. -/
def scChain : Scope :=
  { names := [("y", { definition := some 3, reads := [10] })] }

/-- The tree of `x = z = 1\na = x + 1\n` up to node identities. -/
def mChainExpected : Mod :=
  { nid := 0,
    body := [
      .assign 0 [.nameE 0 "x" .store, .nameE 0 "z" .store] (.numE 0 1),
      .assign 0 [.nameE 0 "a" .store]
        (.binop 0 (.nameE 0 "x" .load) "+" (.numE 0 1))] }

/-- The tree of `x = 1\na = x\n`. -/
def mSimple : Mod :=
  { nid := 70,
    body := [
      .assign 41 [.nameE 42 "x" .store] (.numE 43 1),
      .assign 44 [.nameE 45 "a" .store] (.nameE 46 "x" .load)] }

/-- The scope table of `mSimple` restricted to `x`. -/
def scSimple : Scope :=
  { names := [("x", { definition := some 42, reads := [46] })] }

/-- The tree of `a = 1\n` up to node identities. -/
def mSimpleExpected : Mod :=
  { nid := 0, body := [.assign 0 [.nameE 0 "a" .store] (.numE 0 1)] }

/-- C6. After successful inlining: every recorded read is replaced, in order,
by an independent deep copy of the defining assignment's value expression
(the fold of `replaceExpById` with `deepcopyExp value`), and the defining
assignment is removed entirely when its (live) target list has exactly one
element, while with multiple chained targets only the targets naming the
inlined name are filtered out and the assignment survives.  In particular,
inlining `y` in `x = y = z = 1\na = x + y\n` yields `x = z = 1\na = x + 1\n`,
and inlining `x` in `x = 1\na = x\n` yields `a = 1\n` (trees compared up to
node identities). -/
theorem inline_replaces_reads_and_removes_assignment :
    (∀ (sc : Scope) (m : Mod) (name : String) (entry : NameEntry)
        (defId : Nat) (sid : String) (c : Ctx) (aid : Nat) (tgts : List Exp)
        (value : Exp) (aid2 : Nat) (tgts1 : List Exp) (v1 : Exp),
      lookupName sc name = some entry →
      entry.definition.bind (fun i => findNodeM m i) =
        some (.expR (.nameE defId sid c)) →
      parentOfM m defId = some (.stmR (.assign aid tgts value)) →
      isModRef (parentOfM m aid) = true →
      entry.reads.any (fun r => ctxIsStore (findNodeM m r)) = false →
      findNodeM (entry.reads.foldl
          (fun acc r => replaceExpById acc r (deepcopyExp value)) m) aid =
        some (.stmR (.assign aid2 tgts1 v1)) →
      inline_name sc m name =
        (none,
          if tgts1.length = 1 then
            removeTopStm (entry.reads.foldl
              (fun acc r => replaceExpById acc r (deepcopyExp value)) m) aid
          else
            setTopAssignTargets (entry.reads.foldl
              (fun acc r => replaceExpById acc r (deepcopyExp value)) m) aid
              (tgts1.filter (fun t => !(isNameNamed t name))))) ∧
    ((inline_name scChain mChain "y").1 = none ∧
      eraseMod (inline_name scChain mChain "y").2 = eraseMod mChainExpected) ∧
    ((inline_name scSimple mSimple "x").1 = none ∧
      eraseMod (inline_name scSimple mSimple "x").2 = eraseMod mSimpleExpected) := by
  refine ⟨?_, ⟨rfl, rfl⟩, ⟨rfl, rfl⟩⟩
  intro sc m name entry defId sid c aid tgts value aid2 tgts1 v1
    h1 h2 h3 h4 h5 h6
  simp only [inline_name, h1, h2, h3, h4, h5, h6]
  simp

/-- C6 witness: the general statement applied to the chained-target example,
with every hypothesis discharged by evaluation. -/
theorem inline_replaces_reads_and_removes_assignment_witness :
    inline_name scChain mChain "y" =
      (none,
        setTopAssignTargets
          (replaceExpById mChain 10 (deepcopyExp (.numE 5 1))) 1
          ([Exp.nameE 2 "x" .store, .nameE 3 "y" .store,
            .nameE 4 "z" .store].filter (fun t => !(isNameNamed t "y")))) := by
  have h := inline_replaces_reads_and_removes_assignment.1 scChain mChain "y"
    { definition := some 3, reads := [10] } 3 "y" .store 1
    [.nameE 2 "x" .store, .nameE 3 "y" .store, .nameE 4 "z" .store]
    (.numE 5 1) 1
    [.nameE 2 "x" .store, .nameE 3 "y" .store, .nameE 4 "z" .store]
    (.numE 5 1) rfl rfl rfl rfl rfl rfl
  exact h.trans rfl

end Pasta
